import Mathlib

/-!
Verification development for the desktop.ts repository excerpt.

The definitions below are shallow embeddings of:
  * `src/vs/workbench/contrib/output/browser/outputView.ts`
    (`OutputViewPane`, `FilterController`),
  * the `OutputViewFilters` / `OutputService` classes embedded in `README.md`,
  * `src/vs/workbench/services/suggest/browser/simpleSuggestWidget.ts`
    (`SimpleSuggestWidget`).

JavaScript strings are embedded as `List Char` (named `JStr`); JavaScript
numbers used for pixel geometry are embedded as `ℚ`; line/column numbers are
embedded as `Nat`.  DOM mutation (CSS classes, show/hide of HTML nodes) is
outside the model; every field of every structure below corresponds to a
piece of state the TypeScript code reads or writes.
-/

/-- JavaScript strings, embedded as lists of characters. -/
abbrev JStr := List Char

/-- `startsWithJ l pat` is the embedding of "the string `l` starts with
`pat`" (used to embed `String.prototype.includes` and to locate the first
occurrence of a pattern for `String.prototype.replace`). -/
def startsWithJ : JStr → JStr → Bool
  | _, [] => true
  | [], _ :: _ => false
  | a :: as, b :: bs => a == b && startsWithJ as bs

/-- Embedding of JavaScript `l.includes(pat)` for strings: does `pat` occur
as a contiguous substring of `l`? -/
def includesJ : JStr → JStr → Bool
  | [], pat => pat == []
  | l@(_ :: rest), pat => startsWithJ l pat || includesJ rest pat

/-- Embedding of JavaScript `l.replace(pat, rep)` with a string pattern:
replaces the first occurrence of `pat` in `l` (and returns `l` unchanged
when `pat` does not occur).  Only called with non-empty `pat`. -/
def replaceFirstJ : JStr → JStr → JStr → JStr
  | [], _, _ => []
  | c :: rest, pat, rep =>
    if startsWithJ (c :: rest) pat then rep ++ (c :: rest).drop pat.length
    else c :: replaceFirstJ rest pat rep

theorem startsWithJ_iff (l pat : JStr) :
    startsWithJ l pat = true ↔ ∃ t, l = pat ++ t := by
  induction pat generalizing l with
  | nil => simp [startsWithJ]
  | cons b bs ih =>
    cases l with
    | nil => simp [startsWithJ]
    | cons a as =>
      simp only [startsWithJ, Bool.and_eq_true, beq_iff_eq, ih]
      constructor
      · rintro ⟨rfl, t, rfl⟩; exact ⟨t, rfl⟩
      · rintro ⟨t, h⟩
        injection h with h1 h2
        exact ⟨h1, t, h2⟩

theorem includesJ_iff (l pat : JStr) :
    includesJ l pat = true ↔ ∃ u v, l = u ++ pat ++ v := by
  induction l with
  | nil =>
    simp only [includesJ, beq_iff_eq]
    constructor
    · rintro rfl; exact ⟨[], [], rfl⟩
    · rintro ⟨u, v, h⟩
      have h2 := (List.append_eq_nil.mp ((List.append_assoc u pat v ▸ h.symm))).2
      rcases List.append_eq_nil.mp h2 with ⟨h1, -⟩
      exact h1.symm ▸ rfl
  | cons c rest ih =>
    simp only [includesJ, Bool.or_eq_true, startsWithJ_iff, ih]
    constructor
    · rintro (⟨t, h⟩ | ⟨u, v, h⟩)
      · exact ⟨[], t, by simpa using h⟩
      · exact ⟨c :: u, v, by simp [h]⟩
    · rintro ⟨u, v, h⟩
      cases u with
      | nil => exact Or.inl ⟨v, by simpa using h⟩
      | cons x xs =>
        injection h with h1 h2
        exact Or.inr ⟨xs, v, h2⟩

/-! ## Output view filters (class `OutputViewFilters`, README.md) -/

/-- State of the `OutputViewFilters` object.  `filterText` backs the `text`
getter/setter, the five booleans back the level toggles, and `sourcesRaw`
backs the `sources` getter (which returns `this._sources.get() || ','`). -/
structure OutputViewFilters where
  filterText : JStr
  trace : Bool
  debug : Bool
  info : Bool
  warning : Bool
  error : Bool
  sourcesRaw : JStr
deriving DecidableEq, Repr

namespace OutputViewFilters

/-- The `sources` getter: `return this._sources.get() || ','`. -/
def sourcesGet (f : OutputViewFilters) : JStr :=
  if f.sourcesRaw = [] then [','] else f.sourcesRaw

/-- `hasSource`: `if (source === ',') return false; return
this.sources.includes(',' + source + ',')`. -/
def hasSource (f : OutputViewFilters) (source : JStr) : Bool :=
  if source = [','] then false
  else includesJ f.sourcesGet (',' :: (source ++ [',']))

/-- `toggleSource`: removes the first occurrence of `,source,` from the
`sources` value when present, otherwise appends `source,` to it. -/
def toggleSource (f : OutputViewFilters) (source : JStr) : OutputViewFilters :=
  if f.hasSource source then
    { f with sourcesRaw := replaceFirstJ f.sourcesGet (',' :: (source ++ [','])) [','] }
  else
    { f with sourcesRaw := f.sourcesGet ++ source ++ [','] }

end OutputViewFilters

/-! ## Properties of `toggleSource` / `hasSource` -/

theorem startsWithJ_extend_false {s : JStr} (hnc : ',' ∉ s) (c : Char) (u' : JStr)
    (hst : startsWithJ (c :: (u' ++ [','])) (',' :: (s ++ [','])) = false) :
    startsWithJ (c :: ((u' ++ [',']) ++ (s ++ [',']))) (',' :: (s ++ [','])) = false := by
  cases h2 : startsWithJ (c :: ((u' ++ [',']) ++ (s ++ [',']))) (',' :: (s ++ [','])) with
  | false => rfl
  | true =>
    exfalso
    obtain ⟨t, ht⟩ := (startsWithJ_iff _ _).mp h2
    rw [List.cons_append] at ht
    injection ht with hc key
    subst hc
    rcases le_or_lt (s.length + 1) (u' ++ [',']).length with hle | hlt
    · have htake : (u' ++ [',']).take (s.length + 1) = s ++ [','] := by
        calc (u' ++ [',']).take (s.length + 1)
            = ((u' ++ [',']) ++ (s ++ [','])).take (s.length + 1) :=
              (List.take_append_of_le_length hle).symm
          _ = ((s ++ [',']) ++ t).take (s.length + 1) := by rw [key]
          _ = s ++ [','] := by
              have h3 := List.take_left (s ++ [',']) t
              simpa using h3
      have hsw : startsWithJ (u' ++ [',']) (s ++ [',']) = true :=
        (startsWithJ_iff _ _).mpr
          ⟨(u' ++ [',']).drop (s.length + 1), by
            conv_lhs => rw [← List.take_append_drop (s.length + 1) (u' ++ [','])]
            rw [htake]⟩
      have h4 : startsWithJ (',' :: (u' ++ [','])) (',' :: (s ++ [','])) = true := by
        simp [startsWithJ, hsw]
      rw [h4] at hst
      exact Bool.true_eq_false.mp hst
    · have hm_le : (u' ++ [',']).length ≤ s.length := Nat.lt_succ_iff.mp hlt
      have htake : u' ++ [','] = s.take (u' ++ [',']).length := by
        calc u' ++ [',']
            = ((u' ++ [',']) ++ (s ++ [','])).take (u' ++ [',']).length :=
              (List.take_left _ _).symm
          _ = ((s ++ [',']) ++ t).take (u' ++ [',']).length := by rw [key]
          _ = (s ++ [',']).take (u' ++ [',']).length :=
              List.take_append_of_le_length
                (by simp only [List.length_append, List.length_cons,
                      List.length_nil] at hm_le ⊢; omega)
          _ = s.take (u' ++ [',']).length := List.take_append_of_le_length hm_le
      have hmem : ',' ∈ u' ++ [','] := by simp
      rw [htake] at hmem
      exact hnc (List.mem_of_mem_take hmem)

/-- Removing the first occurrence of `,s,` from `g ++ s ++ ","` recovers
`g` when `g` ends with a comma, `s` is non-empty and comma-free, and `,s,`
does not occur in `g`: the only occurrence of the pattern is the one formed
by the trailing comma of `g` and the appended `s ++ ","`. -/
theorem replaceFirstJ_roundtrip {s : JStr} (hnc : ',' ∉ s) :
    ∀ u : JStr, includesJ (u ++ [',']) (',' :: (s ++ [','])) = false →
      replaceFirstJ ((u ++ [',']) ++ (s ++ [','])) (',' :: (s ++ [','])) [','] = u ++ [','] := by
  intro u
  induction u with
  | nil =>
    intro _
    have hstart : startsWithJ (',' :: (s ++ [','])) (',' :: (s ++ [','])) = true :=
      (startsWithJ_iff _ _).mpr ⟨[], by simp⟩
    have hl : (([] : JStr) ++ [',']) ++ (s ++ [',']) = ',' :: (s ++ [',']) := by simp
    rw [hl, replaceFirstJ, hstart]
    simp [List.drop_length]
  | cons c u' ih =>
    intro H
    rw [List.cons_append, includesJ, Bool.or_eq_false_iff] at H
    obtain ⟨hst, hrest⟩ := H
    have hcond := startsWithJ_extend_false hnc c u' hst
    rw [List.cons_append, List.cons_append, replaceFirstJ, hcond]
    simp only [Bool.false_eq_true, if_false, List.cons_append]
    rw [ih hrest]

/-! ## FilterController (outputView.ts) -/

/-- Editor ranges (`vs/editor/common/core/range`), restricted to the four
coordinates the output-view code reads and writes. -/
structure ERange where
  startLineNumber : Nat
  startColumn : Nat
  endLineNumber : Nat
  endColumn : Nat
deriving DecidableEq, Repr

/-- The `LogLevel` enum from `platform/log/common/log`. -/
inductive LogLevel
  | Off | Trace | Debug | Info | Warning | Error
deriving DecidableEq, Repr

/-- A parsed log entry (`ILogEntry` from the output service): its range in
the model, its log level and its source (`[]` embeds a missing/empty
source, which is falsy in JavaScript). -/
structure ILogEntry where
  range : ERange
  logLevel : LogLevel
  source : JStr
deriving DecidableEq, Repr

/-- The slice of the `ITextModel` interface that `FilterController` uses:
`getLineCount`, `getLineMaxColumn` and `findMatches` (the latter returning
the ranges of the matches of a search string inside a range). -/
structure TextModel where
  lineCount : Nat
  lineMaxColumn : Nat → Nat
  findMatches : JStr → ERange → List ERange

/-- `FilterController.shouldShowLogLevel`: each of the five levels follows
its toggle; every other level (i.e. `Off`) falls through to `return true`. -/
def shouldShowLogLevel (entry : ILogEntry) (f : OutputViewFilters) : Bool :=
  match entry.logLevel with
  | LogLevel.Trace => f.trace
  | LogLevel.Debug => f.debug
  | LogLevel.Info => f.info
  | LogLevel.Warning => f.warning
  | LogLevel.Error => f.error
  | LogLevel.Off => true

/-- `FilterController.shouldShowSource`: entries without a source are always
shown, otherwise the filter's `hasSource` is consulted for
`activeChannelId + '-' + entry.source`. -/
def shouldShowSource (activeChannelId : JStr) (entry : ILogEntry)
    (f : OutputViewFilters) : Bool :=
  if entry.source = [] then true
  else !f.hasSource (activeChannelId ++ ['-'] ++ entry.source)

/-- `const hasLogLevelFilter = !filters.trace || !filters.debug ||
!filters.info || !filters.warning || !filters.error`. -/
def hasLogLevelFilter (f : OutputViewFilters) : Bool :=
  !f.trace || !f.debug || !f.info || !f.warning || !f.error

/-- Outcome of one iteration of the entry loop of
`FilterController.filterIncremental`. -/
inductive EntryAction
  | hideLevel
  | hideSource
  | hideNoMatch
  | showMatches (ms : List ERange)
  | keep
deriving DecidableEq, Repr

/-- The body of the entry loop of `FilterController.filterIncremental`,
deciding what happens to a single log entry. -/
def entryStep (model : TextModel) (f : OutputViewFilters)
    (activeChannelId : JStr) (entry : ILogEntry) : EntryAction :=
  if hasLogLevelFilter f && !shouldShowLogLevel entry f then EntryAction.hideLevel
  else if !shouldShowSource activeChannelId entry f then EntryAction.hideSource
  else if f.filterText ≠ [] then
    let ms := model.findMatches f.filterText entry.range
    if ms ≠ [] then EntryAction.showMatches ms else EntryAction.hideNoMatch
  else EntryAction.keep

/-- Effect of an `EntryAction` on the accumulated
`(hiddenAreas, findMatchesDecorations)` pair. -/
def applyEntryAction (acc : List ERange × List ERange) (entry : ILogEntry) :
    EntryAction → List ERange × List ERange
  | EntryAction.hideLevel => (acc.1 ++ [entry.range], acc.2)
  | EntryAction.hideSource => (acc.1 ++ [entry.range], acc.2)
  | EntryAction.hideNoMatch => (acc.1 ++ [entry.range], acc.2)
  | EntryAction.showMatches ms => (acc.1, acc.2 ++ ms)
  | EntryAction.keep => acc

/-- The entry loop of `FilterController.filterIncremental` (`for (let i =
from; ...)`), folded over the remaining entries. -/
def processEntries (model : TextModel) (f : OutputViewFilters)
    (activeChannelId : JStr) :
    List ILogEntry → List ERange × List ERange → List ERange × List ERange
  | [], acc => acc
  | e :: rest, acc =>
      processEntries model f activeChannelId rest
        (applyEntryAction acc e (entryStep model f activeChannelId e))

/-- `new Range(lineNumber, 1, lineNumber, model.getLineMaxColumn(lineNumber))`. -/
def lineRangeOf (model : TextModel) (n : Nat) : ERange :=
  ⟨n, 1, n, model.lineMaxColumn n⟩

/-- The line loop of `FilterController.filterIncremental` (taken when no log
entries were parsed), folded over a list of line numbers. -/
def processLines (model : TextModel) (f : OutputViewFilters) :
    List Nat → List ERange × List ERange → List ERange × List ERange
  | [], acc => acc
  | n :: rest, acc =>
      let lineRange := lineRangeOf model n
      let ms := model.findMatches f.filterText lineRange
      processLines model f rest
        (if ms ≠ [] then (acc.1, acc.2 ++ ms) else (acc.1 ++ [lineRange], acc.2))

/-- The line numbers `a, a+1, ..., b` (empty when `b < a`). -/
def lineNumbersFromTo (a b : Nat) : List Nat :=
  List.range' a (b + 1 - a)

/-- `FilterController.filterIncremental`: starting from the already
accumulated `hidden0` (the controller's `this.hiddenAreas`), returns the new
hidden areas (as passed to `setHiddenAreas`) and the find-match decorations
pushed in this call.  When log entries exist, entries from index `fromIdx`
are processed if any filter is active; otherwise, when a text filter is set,
lines `fromIdx + 1 .. lineCount` are processed. -/
def filterIncremental (model : TextModel) (f : OutputViewFilters)
    (activeChannelId : JStr) (logEntries : Option (List ILogEntry))
    (fromIdx : Nat) (hidden0 : List ERange) : List ERange × List ERange :=
  match logEntries with
  | some entries =>
      if hasLogLevelFilter f || !f.filterText.isEmpty
          || includesJ f.sourcesGet activeChannelId then
        processEntries model f activeChannelId (entries.drop fromIdx) (hidden0, [])
      else (hidden0, [])
  | none =>
      if !f.filterText.isEmpty then
        processLines model f (lineNumbersFromTo (fromIdx + 1) model.lineCount)
          (hidden0, [])
      else (hidden0, [])

/-! ## FilterController state and the model-content-change handler -/

/-- The log parsing functions `parseLogEntryAt` and `parseLogEntries`
imported by outputView.ts from the output service (their implementation is
not part of this excerpt, so the controller is parameterised over them). -/
structure LogParser where
  parseLogEntryAt : TextModel → Nat → Option ILogEntry
  parseLogEntries : TextModel → Nat → List ILogEntry

/-- The mutable state of `FilterController`: `this.logEntries`,
`this.hiddenAreas` and the accumulated contents of
`this.decorationsCollection`. -/
structure ControllerState where
  logEntries : Option (List ILogEntry)
  hiddenAreas : List ERange
  decorations : List ERange

/-- `FilterController.computeLogEntries`: `logEntries` is `undefined` when
line 1 does not parse as a log entry, otherwise all entries from line 1. -/
def computeLogEntries (p : LogParser) (model : TextModel) :
    Option (List ILogEntry) :=
  match p.parseLogEntryAt model 1 with
  | none => none
  | some _ => some ([] ++ p.parseLogEntries model 1)

/-- `FilterController.computeLogEntriesIncremental`: concatenates the
entries parsed from `fromLine` when `logEntries` already exists. -/
def computeLogEntriesIncremental (p : LogParser) (model : TextModel)
    (fromLine : Nat) (logEntries : Option (List ILogEntry)) :
    Option (List ILogEntry) :=
  match logEntries with
  | some es => some (es ++ p.parseLogEntries model fromLine)
  | none => none

/-- `FilterController.filter`: resets hidden areas and decorations, then
runs `filterIncremental` from 0. -/
def filterFull (model : TextModel) (f : OutputViewFilters)
    (activeChannelId : JStr) (logEntries : Option (List ILogEntry)) :
    List ERange × List ERange :=
  filterIncremental model f activeChannelId logEntries 0 []

/-- The non-incremental path of the change handler (also the work done by
`onDidChangeModel`): `computeLogEntries` followed by `filter`. -/
def fullRecompute (p : LogParser) (model : TextModel) (f : OutputViewFilters)
    (activeChannelId : JStr) : ControllerState :=
  let le := computeLogEntries p model
  let hd := filterFull model f activeChannelId le
  ⟨le, hd.1, hd.2⟩

/-- The `computeEndLineNumber` closure of `onDidChangeModel`: the line
count, minus one when the last line is empty and not the only line. -/
def computeEndLineNumber (model : TextModel) : Nat :=
  let endLineNumber := model.lineCount
  if 1 < endLineNumber ∧ model.lineMaxColumn endLineNumber = 1 then
    endLineNumber - 1
  else endLineNumber

/-- The incremental branch of the `onDidChangeContent` handler: `filterFrom`
is the old entry count (or `endLineNumber + 1` when no entries exist),
entries are re-parsed incrementally from `endLineNumber + 1`, and
`filterIncremental` extends the previous hidden areas and decorations. -/
def handleAppendChange (p : LogParser) (model : TextModel)
    (f : OutputViewFilters) (activeChannelId : JStr) (endLineNumber : Nat)
    (st : ControllerState) : ControllerState :=
  let filterFrom := match st.logEntries with
    | some es => es.length
    | none => endLineNumber + 1
  let le := match st.logEntries with
    | some _ => computeLogEntriesIncremental p model (endLineNumber + 1) st.logEntries
    | none => st.logEntries
  let hd := filterIncremental model f activeChannelId le filterFrom st.hiddenAreas
  ⟨le, hd.1, st.decorations ++ hd.2⟩

/-- The `onDidChangeContent` handler of `FilterController.onDidChangeModel`:
takes the incremental path when every change starts strictly after the
previously computed end line, and fully recomputes otherwise. -/
def onContentChange (p : LogParser) (model : TextModel)
    (f : OutputViewFilters) (activeChannelId : JStr) (endLineNumber : Nat)
    (changes : List ERange) (st : ControllerState) : ControllerState :=
  if changes.all (fun c => decide (endLineNumber < c.startLineNumber)) then
    handleAppendChange p model f activeChannelId endLineNumber st
  else
    fullRecompute p model f activeChannelId

/-! ## Characterisation of the filtering loops -/

/-- The hidden range contributed by one entry of the entry loop of
`filterIncremental` (`none` when the entry stays visible). -/
def entryHiddenRange (model : TextModel) (f : OutputViewFilters)
    (activeChannelId : JStr) (e : ILogEntry) : Option ERange :=
  match entryStep model f activeChannelId e with
  | EntryAction.hideLevel => some e.range
  | EntryAction.hideSource => some e.range
  | EntryAction.hideNoMatch => some e.range
  | EntryAction.showMatches _ => none
  | EntryAction.keep => none

/-- The find-match decorations contributed by one entry of the entry loop
of `filterIncremental`. -/
def entryDecorations (model : TextModel) (f : OutputViewFilters)
    (activeChannelId : JStr) (e : ILogEntry) : List ERange :=
  match entryStep model f activeChannelId e with
  | EntryAction.showMatches ms => ms
  | _ => []

/-- The hidden range contributed by one line of the line loop of
`filterIncremental`. -/
def lineHiddenRange (model : TextModel) (f : OutputViewFilters) (n : Nat) :
    Option ERange :=
  if model.findMatches f.filterText (lineRangeOf model n) = [] then
    some (lineRangeOf model n)
  else none

/-- The find-match decorations contributed by one line of the line loop of
`filterIncremental`. -/
def lineDecorations (model : TextModel) (f : OutputViewFilters) (n : Nat) :
    List ERange :=
  model.findMatches f.filterText (lineRangeOf model n)

theorem processEntries_eq (model : TextModel) (f : OutputViewFilters)
    (activeChannelId : JStr) (l : List ILogEntry) (h0 d0 : List ERange) :
    processEntries model f activeChannelId l (h0, d0)
      = (h0 ++ l.filterMap (entryHiddenRange model f activeChannelId),
         d0 ++ l.flatMap (entryDecorations model f activeChannelId)) := by
  induction l generalizing h0 d0 with
  | nil => simp [processEntries]
  | cons e rest ih =>
    simp only [processEntries]
    cases hstep : entryStep model f activeChannelId e <;>
      simp [applyEntryAction, entryHiddenRange, entryDecorations, hstep, ih]

theorem processLines_eq (model : TextModel) (f : OutputViewFilters)
    (l : List Nat) (h0 d0 : List ERange) :
    processLines model f l (h0, d0)
      = (h0 ++ l.filterMap (lineHiddenRange model f),
         d0 ++ l.flatMap (lineDecorations model f)) := by
  induction l generalizing h0 d0 with
  | nil => simp [processLines]
  | cons n rest ih =>
    simp only [processLines]
    by_cases hm : model.findMatches f.filterText (lineRangeOf model n) = [] <;>
      simp [lineHiddenRange, lineDecorations, hm, ih]

/-- The toggle of `IOutputViewFilters` governing a given log level (`none`
for `Off`, which has no toggle). -/
def levelToggle (f : OutputViewFilters) : LogLevel → Option Bool
  | LogLevel.Trace => some f.trace
  | LogLevel.Debug => some f.debug
  | LogLevel.Info => some f.info
  | LogLevel.Warning => some f.warning
  | LogLevel.Error => some f.error
  | LogLevel.Off => none

theorem entryStep_hideLevel_iff (model : TextModel) (f : OutputViewFilters)
    (activeChannelId : JStr) (e : ILogEntry) :
    entryStep model f activeChannelId e = EntryAction.hideLevel
      ↔ (hasLogLevelFilter f && !shouldShowLogLevel e f) = true := by
  unfold entryStep
  split
  · simp [*]
  · split
    · simp_all
    · split
      · simp only []
        split <;> simp_all
      · simp_all

/-! ## Claim C1 -/

/-- C1 (amended): when at least one of the five log-level toggles is
disabled, the level check of `filterIncremental` classifies an entry as
hidden exactly when the toggle corresponding to the entry's log level is
disabled; an entry whose log level is none of the five (i.e. `Off`) is
never hidden by the level check; and an entry hidden by the level check has
its range appended to the hidden areas passed to `setHiddenAreas`.
(Entries whose toggle is enabled can still be hidden by the later source and
text checks, which is what the original claim overlooked.) -/
theorem c1_levelCheck_amended (model : TextModel) (f : OutputViewFilters)
    (activeChannelId : JStr) (e : ILogEntry) (hidden0 : List ERange)
    (hLvl : hasLogLevelFilter f = true) :
    (entryStep model f activeChannelId e = EntryAction.hideLevel
        ↔ levelToggle f e.logLevel = some false)
    ∧ (e.logLevel = LogLevel.Off →
        entryStep model f activeChannelId e ≠ EntryAction.hideLevel)
    ∧ (entryStep model f activeChannelId e = EntryAction.hideLevel →
        (filterIncremental model f activeChannelId (some [e]) 0 hidden0).1
          = hidden0 ++ [e.range]) := by
  refine ⟨?_, ?_, ?_⟩
  · rw [entryStep_hideLevel_iff]
    cases he : e.logLevel <;>
      simp [shouldShowLogLevel, levelToggle, he, hLvl]
  · intro hOff
    rw [Ne, entryStep_hideLevel_iff]
    simp [shouldShowLogLevel, hOff]
  · intro hstep
    simp [filterIncremental, hLvl, processEntries, hstep, applyEntryAction]

/-- Concrete data for the counterexample to claim C1 as stated. -/
def c1Model : TextModel :=
  ⟨1, fun _ => 5, fun _ _ => []⟩

/-- Filters with the trace toggle disabled and a text filter set. -/
def c1Filters : OutputViewFilters :=
  ⟨['x'], false, true, true, true, true, []⟩

/-- An `Info` entry (its toggle is enabled) that does not match the text
filter. -/
def c1Entry : ILogEntry :=
  ⟨⟨1, 1, 1, 5⟩, LogLevel.Info, []⟩

/-- C1 counterexample: with the trace toggle disabled (so the level filter
is active), an entry whose own toggle (`info`) is enabled still has its
range added to the hidden areas, because the text filter finds no match in
it.  This refutes "adds the entry's range ... exactly when the toggle
corresponding to the entry's log level is disabled". -/
theorem c1_counterexample :
    hasLogLevelFilter c1Filters = true
    ∧ c1Filters.info = true
    ∧ c1Entry.logLevel = LogLevel.Info
    ∧ (filterIncremental c1Model c1Filters [] (some [c1Entry]) 0 []).1
        = [c1Entry.range] := by
  decide

/-- Witness for `c1_levelCheck_amended` at a concrete input. -/
theorem c1_witness :
    hasLogLevelFilter c1Filters = true
    ∧ ((entryStep c1Model c1Filters [] c1Entry = EntryAction.hideLevel
          ↔ levelToggle c1Filters c1Entry.logLevel = some false)
       ∧ (c1Entry.logLevel = LogLevel.Off →
            entryStep c1Model c1Filters [] c1Entry ≠ EntryAction.hideLevel)
       ∧ (entryStep c1Model c1Filters [] c1Entry = EntryAction.hideLevel →
            (filterIncremental c1Model c1Filters [] (some [c1Entry]) 0 []).1
              = [] ++ [c1Entry.range])) :=
  ⟨by decide, c1_levelCheck_amended c1Model c1Filters [] c1Entry [] (by decide)⟩

/-! ## Claim C3 -/

/-- C3 (amended): when the text filter is non-empty, `filterIncremental`
hides exactly the processed entries whose `entryHiddenRange` is set — i.e.
those rejected by the level or source check, or containing no match — and
pushes one find-match decoration per match found in the surviving entries;
an entry that passes the level and source checks is hidden exactly when its
range contains no match.  When no log entries were parsed, it hides exactly
the lines among `from + 1 .. lineCount` containing no match and pushes one
decoration per match in the remaining lines. -/
theorem c3_textFilter_amended (model : TextModel) (f : OutputViewFilters)
    (activeChannelId : JStr) (entries : List ILogEntry) (fromIdx : Nat)
    (hidden0 : List ERange) (hT : f.filterText ≠ []) :
    filterIncremental model f activeChannelId (some entries) fromIdx hidden0
      = (hidden0 ++ (entries.drop fromIdx).filterMap
            (entryHiddenRange model f activeChannelId),
         (entries.drop fromIdx).flatMap (entryDecorations model f activeChannelId))
    ∧ (∀ e : ILogEntry, shouldShowLogLevel e f = true →
         shouldShowSource activeChannelId e f = true →
         entryHiddenRange model f activeChannelId e
             = (if model.findMatches f.filterText e.range = []
                then some e.range else none)
         ∧ entryDecorations model f activeChannelId e
             = (if model.findMatches f.filterText e.range = []
                then [] else model.findMatches f.filterText e.range))
    ∧ filterIncremental model f activeChannelId none fromIdx hidden0
      = (hidden0 ++ (lineNumbersFromTo (fromIdx + 1) model.lineCount).filterMap
            (lineHiddenRange model f),
         (lineNumbersFromTo (fromIdx + 1) model.lineCount).flatMap
            (lineDecorations model f)) := by
  have hE : f.filterText.isEmpty = false := by
    cases hft : f.filterText with
    | nil => exact absurd hft hT
    | cons a l => rfl
  refine ⟨?_, ?_, ?_⟩
  · simp [filterIncremental, hE, processEntries_eq]
  · intro e h1 h2
    by_cases hm : model.findMatches f.filterText e.range = [] <;>
      simp [entryHiddenRange, entryDecorations, entryStep, h1, h2, hT, hm]
  · simp [filterIncremental, hE, processLines_eq]

/-- Model for the C3 counterexample: the text filter matches inside line 1. -/
def c3xModel : TextModel :=
  ⟨1, fun _ => 5, fun t _ => if t = ['x'] then [⟨1, 2, 1, 3⟩] else []⟩

/-- Filters with the trace toggle disabled and text filter `x`. -/
def c3xFilters : OutputViewFilters :=
  ⟨['x'], false, true, true, true, true, []⟩

/-- A `Trace` entry whose range does contain a match of the text filter. -/
def c3xEntry : ILogEntry :=
  ⟨⟨1, 1, 1, 5⟩, LogLevel.Trace, []⟩

/-- C3 counterexample: with a non-empty text filter, an entry whose range
does contain a match is still hidden (by the log-level check, since its
trace toggle is disabled).  This refutes "hides exactly those log entries
whose range contains no match for the filter text". -/
theorem c3_counterexample :
    c3xFilters.filterText ≠ []
    ∧ c3xModel.findMatches c3xFilters.filterText c3xEntry.range ≠ []
    ∧ (filterIncremental c3xModel c3xFilters [] (some [c3xEntry]) 0 []).1
        = [c3xEntry.range] := by
  decide

/-- Witness for `c3_textFilter_amended` at a concrete input. -/
theorem c3_witness :
    c3xFilters.filterText ≠ []
    ∧ filterIncremental c3xModel c3xFilters [] (some [c3xEntry]) 0 []
        = ([c3xEntry.range], [])
    ∧ filterIncremental c3xModel c3xFilters [] none 0 []
        = ([], [⟨1, 2, 1, 3⟩]) :=
  ⟨by decide,
   (c3_textFilter_amended c3xModel c3xFilters [] [c3xEntry] 0 [] (by decide)).1,
   (c3_textFilter_amended c3xModel c3xFilters [] [c3xEntry] 0 [] (by decide)).2.2⟩

/-! ## Claim C2 -/

/-- C2 (amended): for an append-only change (every edit strictly after the
previously computed end line), when log entries were parsed the incremental
path coincides with a full recomputation, provided the parser still finds
an entry at line 1, parsing the whole new model yields the old entries
followed by the entries parsed from `endLineNumber + 1`, and the previous
hidden areas and decorations agree with filtering the old entries against
the new model.  When no log entries were parsed, however, the incremental
path only filters lines from `endLineNumber + 2` onward and keeps all
previously computed hidden areas and decorations — it does not re-examine
the changed line `endLineNumber + 1`, so it need not agree with a full
recomputation (see the counterexample). -/
theorem c2_appendOnly_amended (p : LogParser) (model : TextModel)
    (f : OutputViewFilters) (activeChannelId : JStr) (endLineNumber : Nat)
    (changes : List ERange) (st : ControllerState)
    (hc : changes.all (fun c => decide (endLineNumber < c.startLineNumber)) = true) :
    (∀ E : List ILogEntry, st.logEntries = some E →
      (p.parseLogEntryAt model 1).isSome = true →
      p.parseLogEntries model 1 = E ++ p.parseLogEntries model (endLineNumber + 1) →
      st.hiddenAreas = (filterFull model f activeChannelId (some E)).1 →
      st.decorations = (filterFull model f activeChannelId (some E)).2 →
      onContentChange p model f activeChannelId endLineNumber changes st
        = fullRecompute p model f activeChannelId)
    ∧ (st.logEntries = none →
      onContentChange p model f activeChannelId endLineNumber changes st
        = { logEntries := none,
            hiddenAreas := st.hiddenAreas ++
              (if f.filterText = [] then [] else
                (lineNumbersFromTo (endLineNumber + 1 + 1) model.lineCount).filterMap
                  (lineHiddenRange model f)),
            decorations := st.decorations ++
              (if f.filterText = [] then [] else
                (lineNumbersFromTo (endLineNumber + 1 + 1) model.lineCount).flatMap
                  (lineDecorations model f)) }) := by
  have hoc : onContentChange p model f activeChannelId endLineNumber changes st
      = handleAppendChange p model f activeChannelId endLineNumber st := by
    simp [onContentChange, hc]
  constructor
  · intro E hE hAt hSplit hHid hDec
    obtain ⟨e0, hAt'⟩ := Option.isSome_iff_exists.mp hAt
    have hCLE : computeLogEntries p model
        = some (E ++ p.parseLogEntries model (endLineNumber + 1)) := by
      simp [computeLogEntries, hAt', hSplit]
    rw [hoc]
    rcases st with ⟨le, hid, dec⟩
    simp only at hE hHid hDec
    subst hE
    cases hG : hasLogLevelFilter f || !f.filterText.isEmpty
        || includesJ f.sourcesGet activeChannelId with
    | true =>
      simp only [filterFull, filterIncremental, hG, if_true, processEntries_eq,
        List.nil_append] at hHid hDec
      simp [handleAppendChange, computeLogEntriesIncremental, fullRecompute,
        hCLE, filterFull, filterIncremental, hG, processEntries_eq,
        List.drop_left, List.filterMap_append, List.flatMap_append,
        hHid, hDec, List.append_assoc]
    | false =>
      simp only [filterFull, filterIncremental, hG, Bool.false_eq_true,
        if_false] at hHid hDec
      simp [handleAppendChange, computeLogEntriesIncremental, fullRecompute,
        hCLE, filterFull, filterIncremental, hG, hHid, hDec]
  · intro hE
    rw [hoc]
    rcases st with ⟨le, hid, dec⟩
    simp only at hE
    subst hE
    by_cases ht : f.filterText = []
    · have hE2 : f.filterText.isEmpty = true := by simp [ht]
      simp [handleAppendChange, filterIncremental, hE2, ht]
    · have hE2 : f.filterText.isEmpty = false := by
        cases hft : f.filterText with
        | nil => exact absurd hft ht
        | cons a l => rfl
      simp [handleAppendChange, filterIncremental, hE2, ht, processLines_eq]

/-- Parser for the C2 counterexample: no line ever parses as a log entry
(as for a plain-text, non-log output channel). -/
def c2Parser : LogParser :=
  ⟨fun _ _ => none, fun _ _ => []⟩

/-- Filters with only the text filter `x` active. -/
def c2Filters : OutputViewFilters :=
  ⟨['x'], true, true, true, true, true, []⟩

/-- The old model: line 1 is `hello`, line 2 is empty (so the computed end
line is 1), and the text filter matches nowhere. -/
def c2OldModel : TextModel :=
  ⟨2, fun n => if n = 1 then 6 else 1, fun _ _ => []⟩

/-- The new model after appending `x` on line 2: the text filter now
matches at line 2, columns 1-2. -/
def c2NewModel : TextModel :=
  ⟨2, fun n => if n = 1 then 6 else 2,
   fun t r => if t = ['x'] ∧ r.startLineNumber = 2 then [⟨2, 1, 2, 2⟩] else []⟩

/-- C2 counterexample: starting from the state the controller computed for
the old model, an append-only change at line 2 (strictly after the computed
end line 1) takes the incremental path, which skips line 2 and keeps its
stale hidden area, while a full recomputation unhides line 2 (its new text
matches the filter).  The hidden areas therefore differ. -/
theorem c2_counterexample :
    computeEndLineNumber c2OldModel = 1
    ∧ ([⟨2, 1, 2, 1⟩] : List ERange).all (fun c => decide (1 < c.startLineNumber)) = true
    ∧ (onContentChange c2Parser c2NewModel c2Filters [] 1 [⟨2, 1, 2, 1⟩]
         (fullRecompute c2Parser c2OldModel c2Filters [])).hiddenAreas
        ≠ (fullRecompute c2Parser c2NewModel c2Filters []).hiddenAreas := by
  decide

/-- Parser for the C2 witness: line 1 always parses as an entry, and no
entries are returned by `parseLogEntries`. -/
def c2wParser : LogParser :=
  ⟨fun _ _ => some ⟨⟨1, 1, 1, 1⟩, LogLevel.Info, []⟩, fun _ _ => []⟩

/-- A trivial one-line model. -/
def c2wModel : TextModel :=
  ⟨1, fun _ => 1, fun _ _ => []⟩

/-- Filters with nothing active. -/
def c2wFilters : OutputViewFilters :=
  ⟨[], true, true, true, true, true, []⟩

/-- Witness for `c2_appendOnly_amended` at concrete inputs (one instance
for the entries branch, one for the no-entries branch). -/
theorem c2_witness :
    onContentChange c2wParser c2wModel c2wFilters [','] 0 []
        ⟨some [], [], []⟩
      = fullRecompute c2wParser c2wModel c2wFilters [',']
    ∧ onContentChange c2wParser c2wModel c2wFilters [','] 0 []
        ⟨none, [], []⟩
      = ⟨none, [], []⟩ :=
  ⟨(c2_appendOnly_amended c2wParser c2wModel c2wFilters [','] 0 []
      ⟨some [], [], []⟩ (by decide)).1 [] rfl (by decide) rfl (by decide) (by decide),
   (c2_appendOnly_amended c2wParser c2wModel c2wFilters [','] 0 []
      ⟨none, [], []⟩ (by decide)).2 rfl⟩

/-! ## Claim C9 -/

/-- C9 (amended): for a non-empty, comma-free source that is NOT currently
in the filter, and with the `sources` value ending in a comma (as every
value produced by `toggleSource` does), toggling twice returns the
`sources` filter to its original value, `hasSource` holds after the first
toggle and fails after the second, and `hasSource(',')` is always false.
(When the source is already present, the first toggle removes it — so
`hasSource` is false, not true, after the first toggle, and the double
toggle moves the source to the end of the list; see the counterexample.) -/
theorem c9_toggleSource_amended (f : OutputViewFilters) (s : JStr)
    (hnc : ',' ∉ s) (hnot : f.hasSource s = false)
    (hEnd : ∃ u, f.sourcesGet = u ++ [',']) :
    (f.toggleSource s).hasSource s = true
    ∧ ((f.toggleSource s).toggleSource s).hasSource s = false
    ∧ ((f.toggleSource s).toggleSource s).sourcesGet = f.sourcesGet
    ∧ ∀ g : OutputViewFilters, g.hasSource [','] = false := by
  obtain ⟨u, hu⟩ := hEnd
  have hsne : s ≠ [','] := by
    intro h
    exact hnc (h ▸ List.mem_singleton.mpr rfl)
  have hnot' : includesJ (u ++ [',']) (',' :: (s ++ [','])) = false := by
    rw [OutputViewFilters.hasSource, if_neg hsne, hu] at hnot
    exact hnot
  -- the first toggle appends `s ++ ","` to the sources value
  have hf1 : f.toggleSource s
      = { f with sourcesRaw := (u ++ [',']) ++ (s ++ [',']) } := by
    rw [OutputViewFilters.toggleSource, hnot, if_neg (by simp), hu]
    simp [List.append_assoc]
  have hraw1_ne : (u ++ [',']) ++ (s ++ [',']) ≠ [] := by simp
  have hget1 : (f.toggleSource s).sourcesGet = (u ++ [',']) ++ (s ++ [',']) := by
    rw [hf1, OutputViewFilters.sourcesGet]
    exact if_neg hraw1_ne
  have hocc : includesJ ((u ++ [',']) ++ (s ++ [','])) (',' :: (s ++ [','])) = true :=
    (includesJ_iff _ _).mpr ⟨u, [], by simp⟩
  have hhs1 : (f.toggleSource s).hasSource s = true := by
    rw [OutputViewFilters.hasSource, if_neg hsne, hget1]
    exact hocc
  -- the second toggle removes the unique occurrence of `,s,`
  have hf2 : (f.toggleSource s).toggleSource s
      = { f.toggleSource s with sourcesRaw := u ++ [','] } := by
    rw [OutputViewFilters.toggleSource, hhs1, if_pos rfl, hget1,
      replaceFirstJ_roundtrip hnc u hnot']
  have hget2 : ((f.toggleSource s).toggleSource s).sourcesGet = u ++ [','] := by
    rw [hf2, OutputViewFilters.sourcesGet]
    exact if_neg (by simp)
  refine ⟨hhs1, ?_, ?_, ?_⟩
  · rw [OutputViewFilters.hasSource, if_neg hsne, hget2]
    exact hnot'
  · rw [hget2, hu]
  · intro g
    rw [OutputViewFilters.hasSource, if_pos rfl]

/-- Filter state for the C9 counterexample: the source `x` is already
present in the sources filter. -/
def c9xFilters : OutputViewFilters :=
  ⟨[], true, true, true, true, true, [',', 'x', ',']⟩

/-- C9 counterexample: `x` is non-empty and comma-free, yet after the first
`toggleSource('x')` the source is no longer present (`hasSource` is false,
where the claim asserts it is true), because the source was already in the
filter and the first toggle removed it. -/
theorem c9_counterexample :
    (['x'] : JStr) ≠ []
    ∧ ',' ∉ (['x'] : JStr)
    ∧ c9xFilters.hasSource ['x'] = true
    ∧ (c9xFilters.toggleSource ['x']).hasSource ['x'] = false := by
  decide

/-- Filter state for the C9 witness: empty sources filter. -/
def c9wFilters : OutputViewFilters :=
  ⟨[], true, true, true, true, true, []⟩

/-- Witness for `c9_toggleSource_amended` at a concrete input. -/
theorem c9_witness :
    (c9wFilters.toggleSource ['x']).hasSource ['x'] = true
    ∧ ((c9wFilters.toggleSource ['x']).toggleSource ['x']).hasSource ['x'] = false
    ∧ ((c9wFilters.toggleSource ['x']).toggleSource ['x']).sourcesGet
        = c9wFilters.sourcesGet :=
  ⟨(c9_toggleSource_amended c9wFilters ['x'] (by decide) (by decide) ⟨[], rfl⟩).1,
   (c9_toggleSource_amended c9wFilters ['x'] (by decide) (by decide) ⟨[], rfl⟩).2.1,
   (c9_toggleSource_amended c9wFilters ['x'] (by decide) (by decide) ⟨[], rfl⟩).2.2.1⟩

/-! ## OutputViewPane state persistence (claim C4) -/

/-- The keys of the persisted panel state (`MementoObject`) that
`OutputViewPane` reads and writes; `none` embeds an absent key. -/
structure PanelState where
  filter : Option JStr
  showTrace : Option Bool
  showDebug : Option Bool
  showInfo : Option Bool
  showWarning : Option Bool
  showError : Option Bool
  sourcesFilter : Option JStr
deriving DecidableEq, Repr

/-- JavaScript `o || d` for an optional string (falsy when absent or
empty), as in `this.panelState['filter'] || ''`. -/
def jsOrStr (o : Option JStr) (d : JStr) : JStr :=
  match o with
  | some s => if s = [] then d else s
  | none => d

/-- `OutputViewPane.saveState`: writes the filter text, the five level
toggles and the `sources` value into the panel state. -/
def saveState (f : OutputViewFilters) (ps : PanelState) : PanelState :=
  { ps with
    filter := some f.filterText
    showTrace := some f.trace
    showDebug := some f.debug
    showInfo := some f.info
    showWarning := some f.warning
    showError := some f.error
    sourcesFilter := some f.sourcesGet }

/-- The restore performed by the `OutputViewPane` constructor on
`outputService.filters`: `filter || ''`, the toggles `?? true`, and
`sourcesFilter ?? ''`. -/
def restoreFilters (ps : PanelState) (f0 : OutputViewFilters) : OutputViewFilters :=
  { f0 with
    filterText := jsOrStr ps.filter []
    trace := ps.showTrace.getD true
    debug := ps.showDebug.getD true
    info := ps.showInfo.getD true
    warning := ps.showWarning.getD true
    error := ps.showError.getD true
    sourcesRaw := ps.sourcesFilter.getD [] }

/-- The observable filter state: the values of the seven public properties
of `IOutputViewFilters` (with `sources` read through its getter). -/
def filtersView (f : OutputViewFilters) : JStr × Bool × Bool × Bool × Bool × Bool × JStr :=
  (f.filterText, f.trace, f.debug, f.info, f.warning, f.error, f.sourcesGet)

theorem sourcesGet_ne_nil (f : OutputViewFilters) : f.sourcesGet ≠ [] := by
  unfold OutputViewFilters.sourcesGet
  split
  · simp
  · next h => exact h

/-- A panel state with every key absent. -/
def emptyPanelState : PanelState :=
  ⟨none, none, none, none, none, none, none⟩

/-- C4: saving the filters into the panel state and restoring from it is
the identity on the observable filter state (text, the five level toggles,
and the `sources` value); restoring from an absent state yields the
defaults: empty filter text, all five toggles `true`, and an empty
`sources` backing value. -/
theorem c4_saveState_restore (f f0 f1 : OutputViewFilters) (ps : PanelState) :
    filtersView (restoreFilters (saveState f ps) f0) = filtersView f
    ∧ restoreFilters emptyPanelState f1
        = { f1 with
              filterText := []
              trace := true
              debug := true
              info := true
              warning := true
              error := true
              sourcesRaw := [] } := by
  constructor
  · have h1 : jsOrStr (some f.filterText) [] = f.filterText := by
      by_cases h : f.filterText = [] <;> simp [jsOrStr, h]
    have h2 : ∀ g : OutputViewFilters, g.sourcesRaw = f.sourcesGet →
        g.sourcesGet = f.sourcesGet := by
      intro g hg
      rw [OutputViewFilters.sourcesGet, hg, if_neg (sourcesGet_ne_nil f)]
    simp only [filtersView, restoreFilters, saveState, Option.getD_some, h1]
    rw [h2 _ rfl]
  · rfl

/-! ## SimpleSuggestWidget layout helpers (simpleSuggestWidget.ts) -/

/-- `Math.round` on the non-negative values used here: `⌊q + 1/2⌋`. -/
def jsRound (q : ℚ) : ℤ := ⌊q + 1 / 2⌋

/-- `clamp` from `base/common/numbers`: `Math.min(Math.max(value, min), max)`. -/
def jsClamp (v lo hi : ℤ) : ℤ := min (max v lo) hi

/-- `dom.Dimension`: a width/height pair of pixels. -/
structure Dimension where
  width : ℚ
  height : ℚ
deriving DecidableEq, Repr

/-- The part of `ISimpleSuggestWidgetFontInfo` that the widget reads. -/
structure FontInfo where
  lineHeight : ℚ
deriving DecidableEq, Repr

/-- The record returned by `SimpleSuggestWidget._getLayoutInfo`. -/
structure LayoutInfo where
  itemHeight : ℤ
  statusBarHeight : ℚ
  borderWidth : ℚ
  borderHeight : ℚ
  typicalHalfwidthCharacterWidth : ℚ
  verticalPadding : ℚ
  horizontalPadding : ℚ
  defaultWidth : ℚ
  defaultHeight : ℚ
deriving DecidableEq, Repr

/-- `SimpleSuggestWidget._getLayoutInfo`: `itemHeight =
clamp(ceil(lineHeight), 8, 1000)`, a hard-coded status bar height of 0,
border width 1 (hence border height 2), and a default size of
`430 × (statusBarHeight + 12 * itemHeight + borderHeight)`. -/
def getLayoutInfo (fontInfo : FontInfo) : LayoutInfo :=
  let itemHeight := jsClamp ⌈fontInfo.lineHeight⌉ 8 1000
  { itemHeight := itemHeight
    statusBarHeight := 0
    borderWidth := 1
    borderHeight := 2
    typicalHalfwidthCharacterWidth := 10
    verticalPadding := 22
    horizontalPadding := 14
    defaultWidth := 430
    defaultHeight := 0 + 12 * (itemHeight : ℚ) + 2 }

/-! ## Claim C5 -/

/-- `Math.ceil(this._getLayoutInfo().itemHeight * 4.3)` from
`SimpleSuggestWidget.hide`. -/
def minPersistedHeight (fontInfo : FontInfo) : ℤ :=
  ⌈((getLayoutInfo fontInfo).itemHeight : ℚ) * (43 / 10 : ℚ)⌉

/-- The effect of `SimpleSuggestWidget.hide` on the persisted widget size:
a persisted size whose height is below `minPersistedHeight` is re-stored
with that height (`dim.with(undefined, minPersistedHeight)` keeps the
width); otherwise the persisted size is left alone. -/
def hidePersistedSize (fontInfo : FontInfo) (dim : Option Dimension) :
    Option Dimension :=
  match dim with
  | none => none
  | some d =>
    if d.height < ((minPersistedHeight fontInfo : ℤ) : ℚ) then
      some ⟨d.width, ((minPersistedHeight fontInfo : ℤ) : ℚ)⟩
    else some d

/-- C5: after `hide()` runs, a persisted size (when one exists) has its
height raised to `ceil(4.3 × itemHeight)` — i.e. the resulting height is
the maximum of the old height and that bound, so it is at least the bound —
while the width is unchanged; with nothing persisted, nothing is stored. -/
theorem c5_hide_minHeight (fontInfo : FontInfo) (d : Dimension) :
    hidePersistedSize fontInfo none = none
    ∧ hidePersistedSize fontInfo (some d)
        = some ⟨d.width, max d.height ((minPersistedHeight fontInfo : ℤ) : ℚ)⟩
    ∧ ((minPersistedHeight fontInfo : ℤ) : ℚ)
        ≤ max d.height ((minPersistedHeight fontInfo : ℤ) : ℚ) := by
  refine ⟨rfl, ?_, le_max_right _ _⟩
  have hunf : hidePersistedSize fontInfo (some d)
      = if d.height < ((minPersistedHeight fontInfo : ℤ) : ℚ) then
          some ⟨d.width, ((minPersistedHeight fontInfo : ℤ) : ℚ)⟩
        else some d := rfl
  rw [hunf]
  by_cases h : d.height < ((minPersistedHeight fontInfo : ℤ) : ℚ)
  · rw [if_pos h, max_eq_right (le_of_lt h)]
  · rw [if_neg h, max_eq_left (not_lt.mp h)]

/-! ## Claim C6 -/

/-- The direction flags of one `IResizeEvent` from `ResizableHTMLElement`. -/
structure ResizeEvent where
  north : Bool
  south : Bool
  east : Bool
  west : Bool
deriving DecidableEq, Repr

/-- The accumulation `state.persistHeight ||= north || south;
state.persistWidth ||= east || west` performed by the `onDidResize`
listener over the events of one resize gesture. -/
def persistFlagsOf (events : List ResizeEvent) : Bool × Bool :=
  events.foldl
    (fun p e => (p.1 || e.north || e.south, p.2 || e.east || e.west))
    (false, false)

/-- The final store performed by the `onDidResize` listener when the
gesture is done: a dimension keeps its new value only when the gesture
resized along that axis and the change from the pre-resize size
(`state.currentSize`) exceeds `round(itemHeight / 2)`; otherwise the
previously persisted value, or the default size, is stored. -/
def storeOnResizeDone (fontInfo : FontInfo) (persistedBefore : Option Dimension)
    (preSize : Dimension) (events : List ResizeEvent) (finalSize : Dimension) :
    Dimension :=
  let info := getLayoutInfo fontInfo
  let threshold : ℤ := jsRound ((info.itemHeight : ℚ) / 2)
  let flags := persistFlagsOf events
  let height :=
    if flags.1 = false ∨ |preSize.height - finalSize.height| ≤ (threshold : ℚ) then
      (persistedBefore.map Dimension.height).getD info.defaultHeight
    else finalSize.height
  let width :=
    if flags.2 = false ∨ |preSize.width - finalSize.width| ≤ (threshold : ℚ) then
      (persistedBefore.map Dimension.width).getD info.defaultWidth
    else finalSize.width
  ⟨width, height⟩

theorem persistFlagsOf_eq (events : List ResizeEvent) :
    ∀ a b : Bool,
      events.foldl
        (fun p e => (p.1 || e.north || e.south, p.2 || e.east || e.west)) (a, b)
      = (a || events.any (fun e => e.north || e.south),
         b || events.any (fun e => e.east || e.west)) := by
  induction events with
  | nil => intro a b; simp
  | cons e rest ih =>
    intro a b
    rw [List.foldl_cons]
    rw [show ((a, b).1 || e.north || e.south, (a, b).2 || e.east || e.west)
        = (a || e.north || e.south, b || e.east || e.west) from rfl]
    rw [ih]
    simp [Bool.or_assoc]

theorem if_rev_threshold (b : Bool) (q t x y : ℚ) :
    (if b = false ∨ q ≤ t then x else y) = (if b = true ∧ t < q then y else x) := by
  cases b
  · simp
  · rcases le_or_lt q t with h | h
    · simp [h, not_lt.mpr h]
    · simp [h, not_le.mpr h]

/-- C6: after a resize gesture, the stored width (resp. height) is the new
size exactly when some event of the gesture dragged an east/west (resp.
north/south) edge and the change from the pre-resize size exceeds
`round(itemHeight / 2)`; otherwise it is the previously persisted value or,
when none exists, the default size. -/
theorem c6_resize_persistence (fontInfo : FontInfo)
    (persistedBefore : Option Dimension) (preSize finalSize : Dimension)
    (events : List ResizeEvent) :
    storeOnResizeDone fontInfo persistedBefore preSize events finalSize
      = ⟨if events.any (fun e => e.east || e.west) = true
             ∧ ((jsRound (((getLayoutInfo fontInfo).itemHeight : ℚ) / 2) : ℤ) : ℚ)
               < |preSize.width - finalSize.width|
         then finalSize.width
         else (persistedBefore.map Dimension.width).getD
                (getLayoutInfo fontInfo).defaultWidth,
         if events.any (fun e => e.north || e.south) = true
             ∧ ((jsRound (((getLayoutInfo fontInfo).itemHeight : ℚ) / 2) : ℤ) : ℚ)
               < |preSize.height - finalSize.height|
         then finalSize.height
         else (persistedBefore.map Dimension.height).getD
                (getLayoutInfo fontInfo).defaultHeight⟩ := by
  unfold storeOnResizeDone persistFlagsOf
  rw [persistFlagsOf_eq]
  simp only [Bool.false_or]
  rw [if_rev_threshold, if_rev_threshold]

/-! ## SimpleSuggestWidget state machine (claims C7 and C10) -/

/-- A completion item; the renderer-facing payload is irrelevant to the
state machine, so items are identified by an id. -/
structure SimpleCompletionItem where
  id : Nat
deriving DecidableEq, Repr

/-- A `SimpleCompletionModel`: the list of completion items. -/
structure SimpleCompletionModel where
  items : List SimpleCompletionItem
deriving DecidableEq, Repr

/-- The `State` enum of simpleSuggestWidget.ts. -/
inductive WState
  | Hidden | Loading | Empty | Open | Frozen | Details
deriving DecidableEq, Repr

/-- The cursor position handed to `showSuggestions` and `_layout`. -/
structure CursorPosition where
  top : ℚ
  left : ℚ
  height : ℚ
deriving DecidableEq, Repr

/-- `SimpleSuggestWidget.LOADING_MESSAGE`. -/
def loadingMessage : String := "Loading..."

/-- `SimpleSuggestWidget.NO_SUGGESTIONS_MESSAGE`. -/
def noSuggestionsMessage : String := "No suggestions."

/-- The non-DOM state of a `SimpleSuggestWidget`: the `State`, the stored
completion model, the list contents (`this._list`), the list focus, the
message element text, the focused item, explain mode, the capped height
and the last cursor position. -/
structure SuggestWidgetState where
  state : WState
  completionModel : Option SimpleCompletionModel
  listItems : List SimpleCompletionItem
  listFocus : List Nat
  messageText : String
  focusedItem : Option SimpleCompletionItem
  explainMode : Bool
  cappedHeight : Option (ℚ × ℚ)
  cursorPosition : Option CursorPosition
deriving DecidableEq, Repr

/-- `SimpleSuggestWidget._setState`: returns unchanged when the state is
already `s`; entering `Hidden` empties the list, clears the focused item,
the capped height and explain mode; entering `Loading` or `Empty` sets the
message text; `Open`, `Frozen` and `Details` only show/hide DOM nodes. -/
def setState (w : SuggestWidgetState) (s : WState) : SuggestWidgetState :=
  if w.state = s then w
  else
    let w1 := { w with state := s }
    match s with
    | WState.Hidden =>
        { w1 with
          listItems := []
          listFocus := []
          focusedItem := none
          cappedHeight := none
          explainMode := false }
    | WState.Loading => { w1 with messageText := loadingMessage }
    | WState.Empty => { w1 with messageText := noSuggestionsMessage }
    | WState.Open => w1
    | WState.Frozen => w1
    | WState.Details => w1

/-- `SimpleSuggestWidget.showSuggestions`: records the cursor position;
with `isFrozen` set and a state other than `Empty`/`Hidden` it only
freezes; with no visible items it hides (on auto-trigger) or shows the
empty message, and clears the completion model; otherwise it splices the
model's items into the list, opens (or freezes), and focuses
`selectionIndex`. -/
def showSuggestions (w : SuggestWidgetState) (selectionIndex : Nat)
    (isFrozen isAuto : Bool) (cursorPosition : CursorPosition) :
    SuggestWidgetState :=
  let w0 := { w with cursorPosition := some cursorPosition }
  if isFrozen = true ∧ w0.state ≠ WState.Empty ∧ w0.state ≠ WState.Hidden then
    setState w0 WState.Frozen
  else
    let visibleCount : Nat := (w0.completionModel.map (fun m => m.items.length)).getD 0
    if visibleCount = 0 then
      let w1 := setState w0 (if isAuto = true then WState.Hidden else WState.Empty)
      { w1 with completionModel := none }
    else
      let w2 := { w0 with listItems := (w0.completionModel.map (fun m => m.items)).getD [] }
      let w3 := setState w2 (if isFrozen = true then WState.Frozen else WState.Open)
      { w3 with listFocus := [selectionIndex] }

/-- `SimpleSuggestWidget.hasCompletions`:
`return this._completionModel?.items.length !== 0` (`undefined !== 0` is
true when no completion model is set). -/
def hasCompletions (completionModel : Option SimpleCompletionModel) : Bool :=
  match completionModel with
  | none => true
  | some m => !(m.items.length == 0)

/-! ## Claim C10 -/

/-- C10: `hasCompletions` returns `false` exactly when a completion model
is set and its item list is empty; in particular it returns `true` when no
completion model has been set. -/
theorem c10_hasCompletions :
    hasCompletions none = true
    ∧ ∀ completionModel : Option SimpleCompletionModel,
        (hasCompletions completionModel = false
          ↔ ∃ m : SimpleCompletionModel, completionModel = some m ∧ m.items = []) := by
  refine ⟨rfl, ?_⟩
  intro completionModel
  cases completionModel with
  | none => simp [hasCompletions]
  | some m => simp [hasCompletions, List.length_eq_zero]

/-! ## Claim C7 -/

/-- C7 (amended): calling `showSuggestions` with a completion model with
zero items sets the state to `Hidden` when `isAuto` and to `Empty`
otherwise (setting the 'No suggestions.' message when the widget was not
already `Empty`) and clears the stored completion model — PROVIDED the
frozen shortcut does not fire, i.e. `isFrozen` is false or the state is
`Empty` or `Hidden` (the original claim omitted this proviso, see the
counterexample); with `isFrozen` and a state that is neither `Empty` nor
`Hidden`, the call only switches the state to `Frozen`, leaving list
contents and completion model untouched. -/
theorem c7_showSuggestions_amended (w : SuggestWidgetState)
    (selectionIndex : Nat) (isFrozen isAuto : Bool)
    (cursorPosition : CursorPosition) :
    ((w.completionModel.map SimpleCompletionModel.items = some []
      ∧ (isFrozen = false ∨ w.state = WState.Empty ∨ w.state = WState.Hidden)) →
      (showSuggestions w selectionIndex isFrozen isAuto cursorPosition).state
          = (if isAuto = true then WState.Hidden else WState.Empty)
      ∧ (showSuggestions w selectionIndex isFrozen isAuto cursorPosition).completionModel
          = none
      ∧ (isAuto = false → w.state ≠ WState.Empty →
          (showSuggestions w selectionIndex isFrozen isAuto cursorPosition).messageText
            = noSuggestionsMessage))
    ∧ ((isFrozen = true ∧ w.state ≠ WState.Empty ∧ w.state ≠ WState.Hidden) →
      (showSuggestions w selectionIndex isFrozen isAuto cursorPosition).state
          = WState.Frozen
      ∧ (showSuggestions w selectionIndex isFrozen isAuto cursorPosition).listItems
          = w.listItems
      ∧ (showSuggestions w selectionIndex isFrozen isAuto cursorPosition).completionModel
          = w.completionModel) := by
  obtain ⟨st, cm, li, lf, mt, fi, em, ch, cp⟩ := w
  constructor
  · rintro ⟨hitems, hnofreeze⟩
    obtain ⟨m, rfl, hmi⟩ : ∃ m, cm = some m ∧ m.items = [] := by
      cases cm with
      | none => simp at hitems
      | some m => exact ⟨m, rfl, by simpa using hitems⟩
    cases isFrozen with
    | false =>
      cases isAuto <;> cases st <;>
        simp [showSuggestions, setState, hmi]
    | true =>
      rcases hnofreeze with h | h | h
      · exact absurd h (by simp)
      · simp only at h
        subst h
        cases isAuto <;> simp [showSuggestions, setState, hmi]
      · simp only at h
        subst h
        cases isAuto <;> simp [showSuggestions, setState, hmi]
  · rintro ⟨hf, hne, hnh⟩
    subst hf
    simp only at hne hnh
    cases st
    case Empty => exact absurd rfl hne
    case Hidden => exact absurd rfl hnh
    all_goals simp [showSuggestions, setState]

/-! ## SimpleSuggestWidget._layout (claim C8) -/

/-- The `WidgetPositionPreference` enum. -/
inductive WidgetPositionPreference
  | Above | Below
deriving DecidableEq, Repr

/-- The environment read by `SimpleSuggestWidget._layout` (the claim's
premise is a known cursor position, so it is not optional here; with no
cursor position the method returns without doing anything). -/
structure SuggestLayoutInput where
  bodyWidth : ℚ
  bodyHeight : ℚ
  editorTop : ℚ
  cursorTop : ℚ
  cursorLeft : ℚ
  cursorHeight : ℚ
  listContentHeight : ℚ
  messageClientHeight : ℚ
  fontInfo : FontInfo
  cappedHeight : Option (ℚ × ℚ)
  forceRenderingAbove : Bool
deriving DecidableEq, Repr

/-- `size = size ?? info.defaultSize`. -/
def sizeOrDefault (i : SuggestLayoutInput) (size : Option Dimension) : Dimension :=
  size.getD ⟨(getLayoutInfo i.fontInfo).defaultWidth, (getLayoutInfo i.fontInfo).defaultHeight⟩

/-- `maxWidth = bodyBox.width - info.borderHeight - 2 * info.horizontalPadding`. -/
def maxWidthOf (i : SuggestLayoutInput) : ℚ :=
  i.bodyWidth - (getLayoutInfo i.fontInfo).borderHeight
    - 2 * (getLayoutInfo i.fontInfo).horizontalPadding

/-- `fullHeight = statusBarHeight + list.contentHeight +
messageElement.clientHeight + borderHeight`. -/
def fullHeightOf (i : SuggestLayoutInput) : ℚ :=
  (getLayoutInfo i.fontInfo).statusBarHeight + i.listContentHeight
    + i.messageClientHeight + (getLayoutInfo i.fontInfo).borderHeight

/-- `minHeight = itemHeight + statusBarHeight`: one item plus the status
bar. -/
def minHeightOf (i : SuggestLayoutInput) : ℚ :=
  ((getLayoutInfo i.fontInfo).itemHeight : ℚ) + (getLayoutInfo i.fontInfo).statusBarHeight

/-- `cursorBottom = editorBox.top + cursorBox.top + cursorBox.height`. -/
def cursorBottomOf (i : SuggestLayoutInput) : ℚ :=
  i.editorTop + i.cursorTop + i.cursorHeight

/-- `maxHeightBelow = min(bodyBox.height - cursorBottom - verticalPadding,
fullHeight)`. -/
def maxHeightBelowOf (i : SuggestLayoutInput) : ℚ :=
  min (i.bodyHeight - cursorBottomOf i - (getLayoutInfo i.fontInfo).verticalPadding)
    (fullHeightOf i)

/-- `availableSpaceAbove = editorBox.top + cursorBox.top - verticalPadding`. -/
def availableSpaceAboveOf (i : SuggestLayoutInput) : ℚ :=
  i.editorTop + i.cursorTop - (getLayoutInfo i.fontInfo).verticalPadding

/-- `maxHeightAbove = min(availableSpaceAbove, fullHeight)`. -/
def maxHeightAboveOf (i : SuggestLayoutInput) : ℚ :=
  min (availableSpaceAboveOf i) (fullHeightOf i)

/-- `maxHeight = min(max(maxHeightAbove, maxHeightBelow) + borderHeight,
fullHeight)` — the cap applied to the height before the position preference
is chosen. -/
def maxHeightCapOf (i : SuggestLayoutInput) : ℚ :=
  min (max (maxHeightAboveOf i) (maxHeightBelowOf i) + (getLayoutInfo i.fontInfo).borderHeight)
    (fullHeightOf i)

/-- The wanted height after the capped-height restoration: `if (height ===
this._cappedHeight?.capped) height = this._cappedHeight.wanted`. -/
def cappedRestoredHeight (i : SuggestLayoutInput) (size : Option Dimension) : ℚ :=
  match i.cappedHeight with
  | some wc => if (sizeOrDefault i size).height = wc.2 then wc.1 else (sizeOrDefault i size).height
  | none => (sizeOrDefault i size).height

/-- The outputs of `SimpleSuggestWidget._layout`: the position preference,
the CSS `top`/`left`, the width and height passed to `_resize`, the
element's new max/min sizes, and the new capped-height record. -/
structure SuggestLayoutResult where
  preference : WidgetPositionPreference
  top : ℚ
  left : ℚ
  width : ℚ
  height : ℚ
  maxSizeWidth : ℚ
  maxSizeHeight : ℚ
  minSizeWidth : ℚ
  minSizeHeight : ℚ
  cappedHeightNew : Option (ℚ × ℚ)
deriving DecidableEq, Repr

/-- `SimpleSuggestWidget._layout` with a known cursor position, statement
by statement: clamp the width to `maxWidth`; restore a capped height;
raise the height to `minHeight` and cap it at `maxHeight`; choose the
position preference (above when the height exceeds `maxHeightBelow`, or
when rendering above is forced and more than 150px are available above);
re-assign `maxHeight` accordingly; record the capped height; position the
element and hand the final width/height to `_resize`. -/
def layoutCompute (i : SuggestLayoutInput) (size : Option Dimension) :
    SuggestLayoutResult :=
  let info := getLayoutInfo i.fontInfo
  let width0 := (sizeOrDefault i size).width
  let width1 := if width0 > maxWidthOf i then maxWidthOf i else width0
  let h1 := cappedRestoredHeight i size
  let h2 := if h1 < minHeightOf i then minHeightOf i else h1
  let h3 := if h2 > maxHeightCapOf i then maxHeightCapOf i else h2
  let above : Prop := h3 > maxHeightBelowOf i
    ∨ (i.forceRenderingAbove = true ∧ availableSpaceAboveOf i > 150)
  { preference := if above then WidgetPositionPreference.Above else WidgetPositionPreference.Below
    top := if above then i.cursorTop - h3 - info.borderHeight
           else i.cursorTop + i.cursorHeight
    left := i.cursorLeft
    width := width1
    height := h3
    maxSizeWidth := maxWidthOf i
    maxSizeHeight := if above then maxHeightAboveOf i else maxHeightBelowOf i
    minSizeWidth := 220
    minSizeHeight := minHeightOf i
    cappedHeightNew := if h3 = fullHeightOf i
        then some ((i.cappedHeight.map Prod.fst).getD (sizeOrDefault i size).height, h3)
        else none }

/-- `SimpleSuggestWidget._resize`: `width = min(maxWidth, width)` and,
when the element's max height is non-zero (JavaScript truthiness), `height
= min(maxHeight, height)`. -/
def resizeClampArgs (maxSizeWidth maxSizeHeight width height : ℚ) : ℚ × ℚ :=
  (min maxSizeWidth width,
   if maxSizeHeight ≠ 0 then min maxSizeHeight height else height)

theorem ite_lt_eq_max (a b : ℚ) : (if a < b then b else a) = max a b := by
  rcases le_or_lt b a with h | h
  · rw [if_neg (not_lt.mpr h), max_eq_left h]
  · rw [if_pos h, max_eq_right (le_of_lt h)]

theorem ite_gt_eq_min (a b : ℚ) : (if b < a then b else a) = min a b := by
  rcases le_or_lt a b with h | h
  · rw [if_neg (not_lt.mpr h), min_eq_left h]
  · rw [if_pos h, min_eq_right (le_of_lt h)]

/-- C8: after `_layout` with a known cursor position, the widget is placed
above the cursor (`top = cursorTop - height - borderHeight`) exactly when
the computed height exceeds `maxHeightBelow` or rendering above is forced
with more than 150px of space above; otherwise it is placed below
(`top = cursorTop + cursorHeight`); and the width and height passed to
`_resize` are the requested width clamped to `maxWidth` and the requested
(capped-restored) height raised to `minHeight` and clamped to `maxHeight`. -/
theorem c8_layout (i : SuggestLayoutInput) (size : Option Dimension) :
    ((layoutCompute i size).preference = WidgetPositionPreference.Above
      ↔ ((layoutCompute i size).height > maxHeightBelowOf i
          ∨ (i.forceRenderingAbove = true ∧ availableSpaceAboveOf i > 150)))
    ∧ (layoutCompute i size).top
        = (if (layoutCompute i size).preference = WidgetPositionPreference.Above
           then i.cursorTop - (layoutCompute i size).height
                  - (getLayoutInfo i.fontInfo).borderHeight
           else i.cursorTop + i.cursorHeight)
    ∧ (layoutCompute i size).width
        = min (sizeOrDefault i size).width (maxWidthOf i)
    ∧ (layoutCompute i size).height
        = min (max (cappedRestoredHeight i size) (minHeightOf i)) (maxHeightCapOf i)
    ∧ (layoutCompute i size).height ≤ maxHeightCapOf i
    ∧ (layoutCompute i size).maxSizeHeight
        = (if (layoutCompute i size).preference = WidgetPositionPreference.Above
           then maxHeightAboveOf i else maxHeightBelowOf i) := by
  have hw : (if (sizeOrDefault i size).width > maxWidthOf i
        then maxWidthOf i else (sizeOrDefault i size).width)
      = min (sizeOrDefault i size).width (maxWidthOf i) :=
    ite_gt_eq_min _ _
  have hh2 : (if cappedRestoredHeight i size < minHeightOf i
        then minHeightOf i else cappedRestoredHeight i size)
      = max (cappedRestoredHeight i size) (minHeightOf i) :=
    ite_lt_eq_max _ _
  have hh3 : (if max (cappedRestoredHeight i size) (minHeightOf i) > maxHeightCapOf i
        then maxHeightCapOf i
        else max (cappedRestoredHeight i size) (minHeightOf i))
      = min (max (cappedRestoredHeight i size) (minHeightOf i)) (maxHeightCapOf i) :=
    ite_gt_eq_min _ _
  by_cases habove : min (max (cappedRestoredHeight i size) (minHeightOf i)) (maxHeightCapOf i)
        > maxHeightBelowOf i
      ∨ (i.forceRenderingAbove = true ∧ availableSpaceAboveOf i > 150)
  · simp only [layoutCompute, hw, hh2, hh3, if_pos habove]
    refine ⟨(iff_true_intro habove).symm, ?_, ?_, ?_, ?_, ?_⟩ <;>
      simp [min_le_right, inf_le_right]
  · simp only [layoutCompute, hw, hh2, hh3, if_neg habove]
    refine ⟨iff_of_false (fun h => WidgetPositionPreference.noConfusion h) habove,
        ?_, ?_, ?_, ?_, ?_⟩ <;>
      simp [min_le_right, inf_le_right]

/-- Widget state for the C7 counterexample: state `Open` with a stored
completion model that has zero items. -/
def c7xWidget : SuggestWidgetState :=
  ⟨WState.Open, some ⟨[]⟩, [], [], "", none, false, none, none⟩

/-- A fixed cursor position. -/
def c7Cursor : CursorPosition := ⟨10, 5, 18⟩

/-- C7 counterexample: with a zero-item completion model but `isFrozen`
true in state `Open`, `showSuggestions` takes the frozen shortcut: the
state becomes `Frozen` (not `Hidden`, although `isAuto` is true) and the
completion model is NOT cleared.  This refutes the unconditional first half
of the claim. -/
theorem c7_counterexample :
    c7xWidget.completionModel.map SimpleCompletionModel.items = some []
    ∧ (showSuggestions c7xWidget 0 true true c7Cursor).state = WState.Frozen
    ∧ (showSuggestions c7xWidget 0 true true c7Cursor).completionModel
        = some ⟨[]⟩ := by
  decide

/-- Widget state for the C7 witness, empty-model branch: hidden widget with
a zero-item model. -/
def c7wWidget : SuggestWidgetState :=
  ⟨WState.Hidden, some ⟨[]⟩, [], [], "", none, false, none, none⟩

/-- Witness for `c7_showSuggestions_amended` at concrete inputs (one
instance per branch of the conjunction). -/
theorem c7_witness :
    ((showSuggestions c7wWidget 0 false false c7Cursor).state = WState.Empty
      ∧ (showSuggestions c7wWidget 0 false false c7Cursor).completionModel = none
      ∧ (showSuggestions c7wWidget 0 false false c7Cursor).messageText
          = noSuggestionsMessage)
    ∧ ((showSuggestions c7xWidget 0 true true c7Cursor).state = WState.Frozen
      ∧ (showSuggestions c7xWidget 0 true true c7Cursor).listItems = c7xWidget.listItems
      ∧ (showSuggestions c7xWidget 0 true true c7Cursor).completionModel
          = c7xWidget.completionModel) :=
  ⟨by
    have h := (c7_showSuggestions_amended c7wWidget 0 false false c7Cursor).1
      ⟨by decide, Or.inl rfl⟩
    exact ⟨h.1, h.2.1, h.2.2 rfl (by decide)⟩,
   (c7_showSuggestions_amended c7xWidget 0 true true c7Cursor).2
      ⟨rfl, by decide, by decide⟩⟩
